import Mathlib

/-!
# mp3sync — shallow embedding and verification

A shallow embedding, in Lean 4, of the parts of `rebel-l/mp3sync` (Go) that
the specification's claims are about, together with theorems settling those
claims.

Modelling conventions:
* Go strings are modelled as `List Char` (`Str`).  The program only ever
  indexes and compares ASCII content, where Go's byte indexing and Lean's
  character lists agree; this is noted at each use site.
* `os.PathSeparator` is modelled as the Unix separator `'/'`.
* External effects (the interactive prompt, the file system, the tag reader,
  the disk-info query, the progress bar) are passed in as explicit inputs of
  the embedded functions; the file writes a function performs are returned as
  data.  A Go runtime panic (out-of-range index) is modelled as `none` of an
  `Option`.
* The repository carries two revisions of its `main` orchestration: the file
  `main.go` (with the `transform`/`filesync` packages) and an older revision
  (`src/unnamed/part_000`) in which `snycFiles`, `diskSpace` and `diff` are
  still local functions.  Both are embedded: `doMain` for the current
  `main.go` flow, `doOld`/`snycFiles`/`diskSpace` for the older revision
  whose local functions the claims cite.
-/

namespace Mp3Sync

/-- Go strings, modelled as lists of characters. -/
abbrev Str := List Char

/-- `os.PathSeparator`, modelled as the Unix path separator. -/
def pathSep : Char := '/'

/-- `strings.ToLower`, used on interactive prompt answers (ASCII). -/
def strToLower (s : Str) : Str := s.map Char.toLower

/-- `filepath.Join` of two components, for components that need no cleaning. -/
def joinPath (a b : Str) : Str := a ++ [pathSep] ++ b

/-! ## The `transform` package -/

/-- An id3v2 tag as the transformer reads it: the named text fields plus the
generic text frames served by `GetTextFrame` (a frame that is absent has the
empty text, as in the id3v2 library). -/
structure Tag where
  artist : Str
  album : Str
  year : Str
  title : Str
  frames : List (Str × Str)
deriving DecidableEq, Repr

/-- `tag.GetTextFrame(id).Text`: the text of the first frame with the given
id, `""` when there is none. -/
def Tag.getTextFrame (t : Tag) (fid : Str) : Str :=
  match t.frames.find? (fun p => p.1 == fid) with
  | some p => p.2
  | none => []

/-- Frame id of the disk-number text frame (`TPOS`). -/
def frameIDDisk : Str := "TPOS".data

/-- Frame id of the track-number text frame (`TRCK`). -/
def frameIDTrack : Str := "TRCK".data

/-- The character-substitution table of `replaceChars`, in the order the
source lists it.  (The Go code stores it in a map and applies the
substitutions in the map's iteration order; as every key is a single
character, every value is at most one character, and no value character is a
key, the passes commute, so a fixed order is a faithful model.)  The quote,
backslash and apostrophe keys are written by code point. -/
def subTable : List (Char × Str) :=
  [ (':', [';']),
    (Char.ofNat 92, []),
    ('/', []),
    ('?', ['¿']),
    (Char.ofNat 34, [',']),
    (Char.ofNat 39, [',']),
    ('*', ['x']),
    ('+', ['x']),
    ('[', ['(']),
    (']', [')']),
    ('>', ['-']),
    ('<', ['-']),
    ('|', ['-']) ]

/-- One character under one substitution: `v` if it is the key, itself
otherwise. -/
def subStep (k : Char) (v : Str) (c : Char) : Str := if c = k then v else [c]

/-- `strings.Replace(s, string k, v, -1)` for a single-character pattern. -/
def repAll (k : Char) (v : Str) (s : Str) : Str := s.flatMap (subStep k v)

/-- `replaceChars`: every substitution of the table, applied in sequence. -/
def replaceChars (s : Str) : Str :=
  subTable.foldl (fun acc kv => repAll kv.1 kv.2 acc) s

/-- The name `getFileName` assembles before sanitization: artist, then
`" - " + album` if the album is non-empty, then `" (" + year + ")"` if the
year is non-empty, then `" - " + disk` and `" - " + track` from the text
frames (a one-character track is zero-padded), then `" - " + title + ext`. -/
def buildName (tag : Tag) (ext : Str) : Str :=
  let n1 := tag.artist
  let n2 := if tag.album ≠ [] then n1 ++ " - ".data ++ tag.album else n1
  let n3 := if tag.year ≠ [] then n2 ++ " (".data ++ tag.year ++ ")".data else n2
  let disk := tag.getTextFrame frameIDDisk
  let n4 := if disk ≠ [] then n3 ++ " - ".data ++ disk else n3
  let track := tag.getTextFrame frameIDTrack
  let n5 :=
    if track ≠ [] then
      n4 ++ " - ".data ++ (if track.length = 1 then '0' :: track else track)
    else n4
  n5 ++ " - ".data ++ tag.title ++ ext

/-- `getFileName`: the assembled name, sanitized.  (The Go function also
returns an error value, which is always `nil`.) -/
def getFileName (tag : Tag) (ext : Str) : Str := replaceChars (buildName tag ext)

/-- The declared fallback subfolder name. -/
def defaultSubfolder : Str := "default".data

/-- The numeric-bucket subfolder name. -/
def numericSubfolder : Str := ['#']

/-- `strings.Replace(s, pat, "", 1)`: remove the first occurrence of `pat`. -/
def replaceFirst : Str → Str → Str
  | [], _ => []
  | c :: rest, pat =>
    if pat ≠ [] ∧ pat.isPrefixOf (c :: rest) then (c :: rest).drop pat.length
    else c :: replaceFirst rest pat

/-- `strings.Split(s, string(os.PathSeparator))`.  Like Go's `Split`, the
result is never empty: splitting the empty string yields `[""]`. -/
def splitSep : Str → List Str
  | [] => [[]]
  | c :: rest =>
    if c = pathSep then [] :: splitSep rest
    else
      match splitSep rest with
      | [] => [[c]]
      | p :: ps => (c :: p) :: ps

/-- `regexp.MatchString("[A-Z]", s)`: does `s` contain an upper-case ASCII
letter? -/
def matchUpperAZ (s : Str) : Bool := s.any (fun c => 'A' ≤ c && c ≤ 'Z')

/-- The body of `getSubFolder` on the already-relativized path.  `none`
models the Go runtime panic raised by the unguarded index `parts[0][0]` when
the first path segment is empty.  The Go code takes `ToUpper` of the
one-byte string `string(parts[0][0])`, modelled as `[c.toUpper]` (ASCII). -/
def subFolderOfRel (rel : Str) : Option Str :=
  let parts := splitSep rel
  let sub? : Option Str :=
    match parts with
    | [] => some defaultSubfolder
    | p :: _ =>
      match p with
      | [] => none
      | c :: _ => some [c.toUpper]
  match sub? with
  | none => none
  | some sub => some (if matchUpperAZ sub then sub else numericSubfolder)

/-- `getSubFolder`: relativize the file name by removing the first occurrence
of `source + os.PathSeparator`, then bucket by the first character of the
first path segment. -/
def getSubFolder (fileName source : Str) : Option Str :=
  subFolderOfRel (replaceFirst fileName (source ++ [pathSep]))

/-- The error `transform.Do` wraps around a failed tag parse
(`ErrParseTag`). -/
inductive TransformError where
  | parseTag (file : Str)
deriving DecidableEq, Repr

/-- `transform.Do`.  The tag read (`loadTag`, external I/O) is passed in as
`loadResult`; the whitelist/blacklist membership test (`config.Tag.Contains`,
defined outside this repository) is passed in as the function `contains`, so
everything proved about `transformDo` holds for every `Contains`.  `ext` is
`filepath.Ext(f.Info.Name())`.  The outer `none` models the Go panic inside
`getSubFolder`. -/
def transformDo (contains : List (Str × Str) → Tag → Bool)
    (destination source fName ext : Str) (loadResult : Option Tag)
    (whiteList blackList : List (Str × Str)) : Option (Except TransformError Str) :=
  match loadResult with
  | none => some (Except.error (TransformError.parseTag fName))
  | some tag =>
    if (whiteList.length > 0 && !contains whiteList tag)
        || (blackList.length > 0 && contains blackList tag) then
      some (Except.ok [])
    else
      match getSubFolder fName source with
      | none => none
      | some sub =>
        some (Except.ok (joinPath destination (joinPath sub (getFileName tag ext))))

example :
    getSubFolder "abba/song.mp3".data "".data = some ['A'] := by decide

example :
    getSubFolder "123/song.mp3".data "".data = some ['#'] := by decide

example :
    getSubFolder "a/".data "a".data = none := by decide

/-! ## Lemmas about `replaceChars` -/

/-- Is `c` the source character of some substitution? -/
def isKey (c : Char) : Bool := subTable.any (fun kv => kv.1 == c)

theorem repAll_append (k : Char) (v : Str) (a b : Str) :
    repAll k v (a ++ b) = repAll k v a ++ repAll k v b := by
  simp [repAll]

theorem foldlRep_append (t : List (Char × Str)) (a b : Str) :
    t.foldl (fun acc kv => repAll kv.1 kv.2 acc) (a ++ b)
      = t.foldl (fun acc kv => repAll kv.1 kv.2 acc) a
        ++ t.foldl (fun acc kv => repAll kv.1 kv.2 acc) b := by
  induction t generalizing a b with
  | nil => rfl
  | cons kv t ih =>
    rw [List.foldl_cons, List.foldl_cons, List.foldl_cons, repAll_append]
    exact ih _ _

theorem replaceChars_append (a b : Str) :
    replaceChars (a ++ b) = replaceChars a ++ replaceChars b :=
  foldlRep_append subTable a b

theorem repAll_id (k : Char) (v : Str) (s : Str) (h : ∀ c ∈ s, c ≠ k) :
    repAll k v s = s := by
  induction s with
  | nil => rfl
  | cons c s ih =>
    have hc : c ≠ k := h c (by simp)
    rw [repAll, List.flatMap_cons, subStep, if_neg hc]
    rw [repAll] at ih
    rw [ih (fun d hd => h d (by simp [hd]))]
    rfl

theorem foldlRep_id (t : List (Char × Str)) (s : Str)
    (h : ∀ kv ∈ t, ∀ c ∈ s, c ≠ kv.1) :
    t.foldl (fun acc kv => repAll kv.1 kv.2 acc) s = s := by
  induction t with
  | nil => rfl
  | cons kv t ih =>
    rw [List.foldl_cons, repAll_id kv.1 kv.2 s (fun c hc => h kv (by simp) c hc)]
    exact ih (fun kv2 h2 c hc => h kv2 (by simp [h2]) c hc)

theorem replaceChars_clean (s : Str) (h : ∀ c ∈ s, isKey c = false) :
    replaceChars s = s := by
  apply foldlRep_id
  intro kv hkv c hc heq
  have hk := h c hc
  rw [isKey] at hk
  have : subTable.any (fun p => p.1 == c) = true :=
    List.any_eq_true.mpr ⟨kv, hkv, by rw [heq]; exact beq_self_eq_true _⟩
  rw [this] at hk
  exact Bool.noConfusion hk

theorem replaceChars_eq_flatMap (s : Str) :
    replaceChars s = s.flatMap (fun c => replaceChars [c]) := by
  induction s with
  | nil => rfl
  | cons c s ih =>
    have hcons : (c :: s) = [c] ++ s := rfl
    rw [hcons, replaceChars_append, ih, List.flatMap_append]
    simp

/-- No character a substitution produces is itself the source of a
substitution. -/
theorem keyImage_clean :
    ∀ kv ∈ subTable, ∀ d ∈ replaceChars [kv.1], isKey d = false := by decide

theorem replaceChars_output_clean (s : Str) :
    ∀ d ∈ replaceChars s, isKey d = false := by
  rw [replaceChars_eq_flatMap s]
  intro d hd
  rw [List.mem_flatMap] at hd
  obtain ⟨c, _, hdc⟩ := hd
  by_cases hk : isKey c = true
  · rw [isKey, List.any_eq_true] at hk
    obtain ⟨kv, hkv, hc⟩ := hk
    rw [beq_iff_eq] at hc
    subst hc
    exact keyImage_clean kv hkv d hdc
  · rw [Bool.not_eq_true] at hk
    rw [replaceChars_clean [c] (by intro x hx; rw [List.mem_singleton] at hx; subst hx; exact hk)]
      at hdc
    rw [List.mem_singleton] at hdc
    subst hdc
    exact hk

/-! ## The `getFileName` assembly -/

/-- Whenever the year is non-empty, the assembled (pre-sanitization) name
contains `" (" ++ year ++ ")"`, whatever the album is. -/
theorem buildName_decomp (tag : Tag) (ext : Str) (hy : tag.year ≠ []) :
    ∃ a b, buildName tag ext = a ++ (" (".data ++ tag.year ++ ")".data) ++ b := by
  refine ⟨(if tag.album ≠ [] then tag.artist ++ " - ".data ++ tag.album else tag.artist),
    (if tag.getTextFrame frameIDDisk ≠ []
        then " - ".data ++ tag.getTextFrame frameIDDisk else [])
      ++ (if tag.getTextFrame frameIDTrack ≠ []
          then " - ".data
            ++ (if (tag.getTextFrame frameIDTrack).length = 1
                then '0' :: tag.getTextFrame frameIDTrack
                else tag.getTextFrame frameIDTrack)
          else [])
      ++ " - ".data ++ tag.title ++ ext, ?_⟩
  unfold buildName
  split_ifs <;> simp_all [List.append_assoc]

/-! ## Claims about the path transformer -/

/-- A tag with an empty album and a non-empty year. -/
def noAlbumTag : Tag := ⟨"A".data, [], "1981".data, "T".data, []⟩

/-- C3 (counterexample): `getFileName` appends `" (" + Year + ")"` whenever
the year is non-empty, whether or not the album is empty — the two `if`
statements of the Go source are sequential, not nested.  For the concrete
tag with artist `"A"`, empty album and year `"1981"`, the year does appear
in the produced filename, refuting the claim that an empty album suppresses
it. -/
theorem year_appears_despite_empty_album :
    noAlbumTag.album = [] ∧ noAlbumTag.year ≠ [] ∧
      " (1981)".data <:+: getFileName noAlbumTag ".mp3".data ∧
      getFileName noAlbumTag ".mp3".data = "A (1981) - T.mp3".data := by decide

/-- C3 (amended): in the computed destination filename the `" (Year)"` part
is gated only by the year itself: for every tag whose year is non-empty (and
free of substituted characters, so that sanitization leaves it alone), the
part `" (" ++ year ++ ")"` appears in the filename produced by the path
transformer, whatever the album — in particular also when the album is
empty. -/
theorem year_included_iff_year_nonempty (tag : Tag) (ext : Str)
    (hy : tag.year ≠ []) (hclean : ∀ c ∈ tag.year, isKey c = false) :
    (" (".data ++ tag.year ++ ")".data) <:+: getFileName tag ext := by
  obtain ⟨a, b, hab⟩ := buildName_decomp tag ext hy
  have hmid : replaceChars (" (".data ++ tag.year ++ ")".data)
      = " (".data ++ tag.year ++ ")".data := by
    apply replaceChars_clean
    intro c hc
    rw [List.mem_append, List.mem_append] at hc
    have hparen : ∀ d ∈ " (".data ++ ")".data, isKey d = false := by decide
    rcases hc with hc | hc
    · rcases hc with hc | hc
      · exact hparen c (by rw [List.mem_append]; left; exact hc)
      · exact hclean c hc
    · exact hparen c (by rw [List.mem_append]; right; exact hc)
  refine ⟨replaceChars a, replaceChars b, ?_⟩
  rw [getFileName, hab, replaceChars_append, replaceChars_append, hmid]

/-- C3 (witness for the amended claim): the concrete no-album tag. -/
theorem year_included_iff_year_nonempty_witness :
    (" (".data ++ noAlbumTag.year ++ ")".data) <:+: getFileName noAlbumTag ".mp3".data :=
  year_included_iff_year_nonempty noAlbumTag ".mp3".data (by decide) (by decide)

/-- The tag of the spec's worked filename example. -/
def queenTag : Tag :=
  ⟨"Queen".data, "Greatest Hits".data, "1981".data, "Bohemian Rhapsody".data,
    [("TRCK".data, "5".data)]⟩

/-- C8: for the tag `{Artist: "Queen", Album: "Greatest Hits", Year: "1981",
Track: "5", Title: "Bohemian Rhapsody"}` with no disk frame and extension
`".mp3"`, the filename assembly produces exactly
`"Queen - Greatest Hits (1981) - 05 - Bohemian Rhapsody.mp3"`; the
one-character track value is zero-padded to two digits. -/
theorem queen_filename :
    getFileName queenTag ".mp3".data
      = "Queen - Greatest Hits (1981) - 05 - Bohemian Rhapsody.mp3".data := by decide

/-- C9: the character-sanitization function is idempotent — applying the
substitution table twice yields the same result as applying it once (no
substitution target character is itself a substitution source, see
`keyImage_clean`). -/
theorem replaceChars_idempotent (s : Str) :
    replaceChars (replaceChars s) = replaceChars s :=
  replaceChars_clean _ (replaceChars_output_clean s)

/-- C5: blacklist precedence in `transform.Do`.  For every membership test
`contains`, every tag matching a non-empty blacklist makes `Transform`
return an empty destination path and no error (a skip), whatever the
whitelist — in particular also when the tag matches a non-empty
whitelist. -/
theorem blacklist_beats_whitelist
    (contains : List (Str × Str) → Tag → Bool)
    (destination source fName ext : Str) (tag : Tag)
    (whiteList blackList : List (Str × Str))
    (hbl : blackList ≠ []) (hmatch : contains blackList tag = true) :
    transformDo contains destination source fName ext (some tag) whiteList blackList
      = some (Except.ok []) := by
  rw [transformDo]
  have hlen : blackList.length > 0 := List.length_pos.mpr hbl
  rw [if_pos]
  rw [Bool.or_eq_true]
  right
  rw [Bool.and_eq_true]
  exact ⟨by simpa using hlen, hmatch⟩

/-- C5 (witness): a concrete tag matching both a non-empty whitelist and a
non-empty blacklist is skipped. -/
theorem blacklist_beats_whitelist_witness :
    transformDo (fun l t => l.any (fun kv => kv.1 == "artist".data && kv.2 == t.artist))
      "dest".data "src".data "src/a.mp3".data ".mp3".data (some noAlbumTag)
      [("artist".data, "A".data)] [("artist".data, "A".data)]
      = some (Except.ok []) :=
  blacklist_beats_whitelist
    (fun l t => l.any (fun kv => kv.1 == "artist".data && kv.2 == t.artist))
    "dest".data "src".data "src/a.mp3".data ".mp3".data noAlbumTag
    [("artist".data, "A".data)] [("artist".data, "A".data)]
    (by decide) (by decide)

/-! ## Lemmas about `getSubFolder` -/

theorem isPrefixOf_self (l : Str) : l.isPrefixOf l = true := by
  induction l with
  | nil => rfl
  | cons c rest ih => simp [List.isPrefixOf, ih]

theorem replaceFirst_self (pat : Str) (h : pat ≠ []) : replaceFirst pat pat = [] := by
  cases pat with
  | nil => exact absurd rfl h
  | cons c rest =>
    rw [replaceFirst, if_pos ⟨by simp, isPrefixOf_self (c :: rest)⟩, List.drop_length]

theorem splitSep_ne_nil (s : Str) : splitSep s ≠ [] := by
  cases s with
  | nil => simp [splitSep]
  | cons c rest =>
    rw [splitSep]
    split_ifs
    · simp
    · cases h : splitSep rest <;> simp

theorem splitSep_cons_of_ne (c : Char) (rest : Str) (hc : c ≠ pathSep) :
    ∃ q qs, splitSep (c :: rest) = (c :: q) :: qs := by
  rw [splitSep, if_neg hc]
  cases h : splitSep rest with
  | nil => exact absurd h (splitSep_ne_nil rest)
  | cons q qs => exact ⟨q, qs, rfl⟩

theorem subFolderOfRel_none_iff (rel : Str) :
    subFolderOfRel rel = none ↔ rel = [] ∨ rel.head? = some pathSep := by
  cases rel with
  | nil => simp [subFolderOfRel, splitSep]
  | cons c rest =>
    by_cases hc : c = pathSep
    · subst hc
      simp [subFolderOfRel, splitSep]
    · obtain ⟨q, qs, hq⟩ := splitSep_cons_of_ne c rest hc
      simp [subFolderOfRel, hq, hc]

theorem subFolderOfRel_some_shape (rel : Str) (r : Str)
    (h : subFolderOfRel rel = some r) :
    ((∃ c, ('A' ≤ c ∧ c ≤ 'Z') ∧ r = [c]) ∨ r = numericSubfolder)
      ∧ r ≠ defaultSubfolder := by
  cases rel with
  | nil => simp [subFolderOfRel, splitSep] at h
  | cons c rest =>
    by_cases hc : c = pathSep
    · subst hc
      simp [subFolderOfRel, splitSep] at h
    · obtain ⟨q, qs, hq⟩ := splitSep_cons_of_ne c rest hc
      rw [subFolderOfRel] at h
      simp only [hq] at h
      by_cases hm : matchUpperAZ [c.toUpper] = true
      · rw [if_pos hm] at h
        have hr : r = [c.toUpper] := by
          cases h
          rfl
        subst hr
        simp only [matchUpperAZ, List.any_cons, List.any_nil, Bool.or_false,
          Bool.and_eq_true, decide_eq_true_eq] at hm
        refine ⟨Or.inl ⟨c.toUpper, hm, rfl⟩, ?_⟩
        intro heq
        have := congrArg List.length heq
        simp [defaultSubfolder] at this
      · rw [if_neg hm] at h
        have hr : r = numericSubfolder := by
          cases h
          rfl
        subst hr
        refine ⟨Or.inr rfl, ?_⟩
        intro heq
        have := congrArg List.length heq
        simp [defaultSubfolder, numericSubfolder] at this

/-- C10: `getSubFolder` indexes the first byte of the first path segment
without an emptiness check.  For every input whose source-relative path
(`strings.Replace` of the file name by the source root plus separator) is
empty or begins with the separator — equivalently, whose first path segment
is empty — the embedded function hits the out-of-range index (`none`); in
particular the error branch is reached whenever the file name equals the
source root followed by the separator.  On every other input it totally
returns either a single upper-case letter `A`–`Z` or `"#"`, and never the
declared `"default"` subfolder. -/
theorem getSubFolder_panics_or_buckets (fileName source : Str) :
    (getSubFolder fileName source = none ↔
      replaceFirst fileName (source ++ [pathSep]) = [] ∨
        (replaceFirst fileName (source ++ [pathSep])).head? = some pathSep)
    ∧ (∀ r, getSubFolder fileName source = some r →
        ((∃ c, ('A' ≤ c ∧ c ≤ 'Z') ∧ r = [c]) ∨ r = numericSubfolder)
          ∧ r ≠ defaultSubfolder)
    ∧ getSubFolder (source ++ [pathSep]) source = none := by
  refine ⟨subFolderOfRel_none_iff _, fun r h => subFolderOfRel_some_shape _ r h, ?_⟩
  rw [getSubFolder, replaceFirst_self (source ++ [pathSep]) (by simp)]
  rfl

/-! ## The run orchestration

The effectful collaborators (scanner, tag reader, prompt, disk query, copy,
log file) enter as explicit inputs in `OldEnv`/`MainEnv`; the outcome records
the returned error and which plan entries the executor attempted. -/

/-- The error values of the program, one constructor per distinct error. -/
inductive GoError where
  | pathNotExisting (p : Str)
  | scan (msg : Str)
  | tagParse (file : Str)
  | stat (file : Str)
  | writeLog
  | abortedByUser
  | diskInfo
  | notEnoughSpace (short : Int)
  | copy (file : Str)
  | seeLog
deriving DecidableEq, Repr

/-- One entry of the sync plan: destination name and source size. -/
structure SyncFile where
  name : Str
  sourceSize : Int
deriving DecidableEq, Repr

/-- Modelled from the spec: `sync.Files.SpaceNeeded` (package `sync`, whose
source is not among the files at hand) — `needed` is the sum of `source.size`
over the plan. -/
def spaceNeeded (files : List SyncFile) : Int :=
  (files.map (fun f => f.sourceSize)).sum

/-- `diskSpace` of the older `main` revision: `left = int64(free) - needed`;
inadmissible iff `left < 1`, with an error carrying `left * -1`, the number
of bytes short.  `free = none` models a failing `disk.GetInfo`. -/
def diskSpace (free : Option Int) (files : List SyncFile) : Option GoError :=
  match free with
  | none => some GoError.diskInfo
  | some fr =>
    let left := fr - spaceNeeded files
    if left < 1 then some (GoError.notEnoughSpace (left * -1)) else none

/-- The copy loop of `snycFiles`: per entry, `sync.Do` (failure injected by
`copyErr`); an error is appended and the loop continues.  The first component
records every entry the loop attempted, the second the collected errors. -/
def syncLoop (copyErr : SyncFile → Option GoError) :
    List SyncFile → List SyncFile × List GoError
  | [] => ([], [])
  | f :: rest =>
    let r := syncLoop copyErr rest
    match copyErr f with
    | some e => (f :: r.1, e :: r.2)
    | none => (f :: r.1, r.2)

/-- `snycFiles` (sic): ask "Start Sync? [Y/n]"; an answer that lowercases to
`"n"` yields the single `aborted by user` error with nothing attempted; any
other answer runs the copy loop over the whole plan. -/
def snycFiles (answer : Str) (copyErr : SyncFile → Option GoError)
    (files : List SyncFile) : List SyncFile × List GoError :=
  if strToLower answer = ['n'] then ([], [GoError.abortedByUser])
  else syncLoop copyErr files

/-- `showAndLogErrors` followed by `showErrors`: write the log (failure when
`logOk` is false), then ask "Continue?"; `"n"` aborts, `"s"` only prints the
list, anything else continues. -/
def showAndLogErrorsOutcome (logOk : Bool) (contAnswer : Str) : Option GoError :=
  if logOk = false then some GoError.writeLog
  else if strToLower contAnswer = ['n'] then some GoError.abortedByUser
  else none

/-- The external inputs of one run of the older revision's `do`. -/
structure OldEnv where
  source : Str
  destination : Str
  sourceExists : Bool
  destExists : Bool
  fileListScan : Except GoError (List Str)
  diffFiles : List SyncFile
  diffErrs : List GoError
  contAnswer : Str
  logOk : Bool
  diskFree : Option Int
  startAnswer : Str
  copyErr : SyncFile → Option GoError

/-- What a run of the older `do` produced: its returned error (`none` =
success) and the plan entries the executor attempted. -/
structure OldOutcome where
  result : Option GoError
  copiesAttempted : List SyncFile
deriving DecidableEq, Repr

/-- The older revision's `do`: existence checks, scan, diff (its outputs
injected), `showAndLogErrors` on diff errors, `listDiff` (print only),
`diskSpace`, then `snycFiles`; a sync error list with more than one entry is
reported (aborted-by-user first), and `globErr` turns into the final
"see log for more details" error. -/
def doOld (env : OldEnv) : OldOutcome :=
  if env.sourceExists = false then ⟨some (GoError.pathNotExisting env.source), []⟩
  else if env.destExists = false then ⟨some (GoError.pathNotExisting env.destination), []⟩
  else
    match env.fileListScan with
    | Except.error e => ⟨some e, []⟩
    | Except.ok _ =>
      let step : Option GoError :=
        match env.diffErrs with
        | [] => none
        | _ :: _ => showAndLogErrorsOutcome env.logOk env.contAnswer
      match step with
      | some e => ⟨some e, []⟩
      | none =>
        let globErr := !env.diffErrs.isEmpty
        match diskSpace env.diskFree env.diffFiles with
        | some e => ⟨some e, []⟩
        | none =>
          let r := snycFiles env.startAnswer env.copyErr env.diffFiles
          match r.2 with
          | e0 :: _ :: _ =>
            if e0 = GoError.abortedByUser then ⟨some e0, r.1⟩
            else if env.logOk = false then ⟨some GoError.writeLog, r.1⟩
            else ⟨some GoError.seeLog, r.1⟩
          | _ => if globErr then ⟨some GoError.seeLog, r.1⟩ else ⟨none, r.1⟩

/-- The external inputs of one run of `main.go`'s `do`. -/
structure MainEnv where
  sourceScan : Except GoError (List Str)
  destScan : Except GoError (List Str)
  transformed : List Str
  transformErrs : List GoError
  contAnswer : Str
  logOk : Bool
  showDiffAnswer : Str
  syncFiles : List SyncFile
  diskCheck : Except GoError Unit
  startAnswer : Str
  syncErrs : List GoError
deriving Repr

/-- What a run of `main.go`'s `do` produced: its returned error and whether
the sync executor (`filesync.Do`) was invoked. -/
structure MainOutcome where
  result : Option GoError
  syncExecuted : Bool
deriving DecidableEq, Repr

/-- `main.go`'s `do` from the disk-space report on: "Start Sync? [Y/n]"
(`"n"` returns the aborted-by-user error before `filesync.Do` runs), then the
executor with its error list: more than one error is reported and, via
`globErr`, turns into "see log for more details". -/
def doMainAfterDiff (env : MainEnv) (globErr : Bool) : MainOutcome :=
  match env.diskCheck with
  | Except.error e => ⟨some e, false⟩
  | Except.ok _ =>
    if strToLower env.startAnswer = ['n'] then ⟨some GoError.abortedByUser, false⟩
    else
      match env.syncErrs with
      | e0 :: _ :: _ =>
        if e0 = GoError.abortedByUser then ⟨some e0, true⟩
        else if env.logOk = false then ⟨some GoError.writeLog, true⟩
        else ⟨some GoError.seeLog, true⟩
      | _ =>
        if globErr then ⟨some GoError.seeLog, true⟩ else ⟨none, true⟩

/-- `main.go`'s `do`: both concurrent scans joined (source error first), the
transform batch with `showAndLogErrors` on its errors, then the rest. -/
def doMain (env : MainEnv) : MainOutcome :=
  match env.sourceScan with
  | Except.error e => ⟨some e, false⟩
  | Except.ok _ =>
    match env.destScan with
    | Except.error e => ⟨some e, false⟩
    | Except.ok _ =>
      match env.transformErrs with
      | [] => doMainAfterDiff env false
      | _ :: _ =>
        match showAndLogErrorsOutcome env.logOk env.contAnswer with
        | some e => ⟨some e, false⟩
        | none => doMainAfterDiff env true

/-! ## Claims about the run orchestration -/

theorem doMainAfterDiff_prompt (env : MainEnv) (globErr : Bool)
    (hdisk : env.diskCheck = Except.ok ()) :
    (strToLower env.startAnswer = ['n'] →
      doMainAfterDiff env globErr = ⟨some GoError.abortedByUser, false⟩)
    ∧ (strToLower env.startAnswer ≠ ['n'] →
      (doMainAfterDiff env globErr).syncExecuted = true) := by
  rw [doMainAfterDiff, hdisk]
  constructor
  · intro h
    rw [if_pos h]
  · intro h
    rw [if_neg h]
    rcases env.syncErrs with _ | ⟨e0, _ | ⟨e1, rest⟩⟩ <;> cases globErr <;>
      first
        | rfl
        | (by_cases he : e0 = GoError.abortedByUser <;>
            by_cases hl : env.logOk = false <;> simp [he, hl])

/-- C1: in `main.go`'s `do`, on every run that reaches the "Start Sync?"
prompt, an answer that lowercases to `"n"` makes the run return the distinct
`aborted by user` error (its own constructor of `GoError`, distinguishable
from every other error) without the sync executor ever being invoked; any
other answer (including the empty one) proceeds to execute the sync plan. -/
theorem start_sync_n_aborts_before_copying (env : MainEnv) (src dst : List Str)
    (hsrc : env.sourceScan = Except.ok src) (hdst : env.destScan = Except.ok dst)
    (hcont : env.transformErrs = []
      ∨ (env.logOk = true ∧ strToLower env.contAnswer ≠ ['n']))
    (hdisk : env.diskCheck = Except.ok ()) :
    (strToLower env.startAnswer = ['n'] →
      doMain env = ⟨some GoError.abortedByUser, false⟩)
    ∧ (strToLower env.startAnswer ≠ ['n'] →
      (doMain env).syncExecuted = true) := by
  rw [doMain, hsrc, hdst]
  rcases herr : env.transformErrs with _ | ⟨e, es⟩
  · exact doMainAfterDiff_prompt env false hdisk
  · rcases hcont with hcont | ⟨hlog, hn⟩
    · rw [herr] at hcont
      exact absurd hcont (by simp)
    · rw [showAndLogErrorsOutcome, hlog]
      simp only [Bool.true_eq_false, if_false, if_neg hn]
      exact doMainAfterDiff_prompt env true hdisk

/-- A run whose inputs all succeed and whose "Start Sync?" answer is `"N"`. -/
def abortEnv : MainEnv :=
  ⟨Except.ok [], Except.ok [], [], [], [], true, [], [], Except.ok (), "N".data, []⟩

/-- C1 (witness): with every collaborator succeeding and the answer `"N"`,
the run returns the aborted-by-user error and never invokes the executor. -/
theorem start_sync_n_aborts_before_copying_witness :
    doMain abortEnv = ⟨some GoError.abortedByUser, false⟩ :=
  (start_sync_n_aborts_before_copying abortEnv [] [] rfl rfl (Or.inl rfl) rfl).1 (by decide)

/-- A run in which everything succeeds except that the sync executor returns
exactly one copy error. -/
def oneCopyErrorEnv : MainEnv :=
  ⟨Except.ok [], Except.ok [], [], [], [], true, [], [⟨"f.mp3".data, 10⟩],
    Except.ok (), [], [GoError.copy "f.mp3".data]⟩

/-- C2 (divergence witness): the spec requires a run that accumulated
per-file errors and hit no fatal error to exit with the "N errors, see log"
outcome, but `do` tests `len(errs) > 1`, so when the sync executor returns a
list with exactly one copy error the run returns success (`none`) — the
error is neither counted, nor logged, nor reported.  (The guard
`errors.Is(errs[0], errAbortedByUser)` inside that branch, which can only
ever see a single-element list, shows the test is a slip for
`len(errs) > 0`.) -/
theorem single_copy_error_reported_as_success :
    oneCopyErrorEnv.syncErrs.length = 1 ∧
      oneCopyErrorEnv.transformErrs = [] ∧
      doMain oneCopyErrorEnv = ⟨none, true⟩ := by decide

/-- C6: a copy failure for one plan entry does not abort the batch.  For
every plan and every injected copy-failure behaviour, once the user lets the
sync start, the executor attempts every plan entry in order and returns
exactly one error per failed copy (`filterMap`). -/
theorem copy_failure_does_not_abort_batch (answer : Str)
    (copyErr : SyncFile → Option GoError) (files : List SyncFile)
    (h : strToLower answer ≠ ['n']) :
    (snycFiles answer copyErr files).1 = files ∧
    (snycFiles answer copyErr files).2 = files.filterMap copyErr := by
  rw [snycFiles, if_neg h]
  induction files with
  | nil => exact ⟨rfl, rfl⟩
  | cons f rest ih =>
    rw [syncLoop]
    rcases hc : copyErr f with _ | e <;>
      simp [List.filterMap_cons, hc, ih.1, ih.2]

/-- A three-entry plan whose second copy fails. -/
def threeFilePlan : List SyncFile :=
  [⟨"a.mp3".data, 1⟩, ⟨"b.mp3".data, 2⟩, ⟨"c.mp3".data, 3⟩]

/-- Copy failure injected for `b.mp3` only. -/
def failSecond (f : SyncFile) : Option GoError :=
  if f.name = "b.mp3".data then some (GoError.copy f.name) else none

/-- C6 (witness): of the three files the second fails; the third is still
attempted and the returned error list has exactly one entry. -/
theorem copy_failure_does_not_abort_batch_witness :
    (snycFiles "y".data failSecond threeFilePlan).1 = threeFilePlan ∧
    (snycFiles "y".data failSecond threeFilePlan).2
      = [GoError.copy "b.mp3".data] := by
  have h := copy_failure_does_not_abort_batch "y".data failSecond threeFilePlan (by decide)
  refine ⟨h.1, ?_⟩
  rw [h.2]
  decide

theorem doOld_copies_need_disk (env : OldEnv)
    (h : (doOld env).copiesAttempted ≠ []) :
    diskSpace env.diskFree env.diffFiles = none := by
  rcases hd : diskSpace env.diskFree env.diffFiles with _ | e
  · rfl
  · exfalso
    apply h
    rw [doOld]
    by_cases hs : env.sourceExists = false
    · rw [if_pos hs]
    · rw [if_neg hs]
      by_cases hd2 : env.destExists = false
      · rw [if_pos hd2]
      · rw [if_neg hd2]
        rcases hfl : env.fileListScan with e2 | l
        · rfl
        · rcases hde : env.diffErrs with _ | ⟨e3, es⟩
          · rw [hd]
          · rcases hso : showAndLogErrorsOutcome env.logOk env.contAnswer with _ | e4
            · rw [hd]
            · rfl

/-- C4: disk-space admission.  `diskSpace` computes `left = free - needed`
and admits exactly when `left ≥ 1`; when it fails it returns the error
carrying `needed - free`, the number of bytes short.  With `free = 1000`, a
plan needing `1001` bytes fails with `left = -1` (1 byte short), one needing
`1000` fails with `left = 0`, one needing `999` passes with `left = 1`.  In
the run, copies are only ever attempted after a passing admission: whenever
`doOld` attempted any copy, `diskSpace` returned no error. -/
theorem disk_space_admission (free : Int) (files : List SyncFile) (env : OldEnv) :
    (diskSpace (some free) files = none ↔ 1 ≤ free - spaceNeeded files)
    ∧ (free - spaceNeeded files < 1 →
        diskSpace (some free) files
          = some (GoError.notEnoughSpace ((free - spaceNeeded files) * -1)))
    ∧ (∀ h : (doOld env).copiesAttempted ≠ [],
        diskSpace env.diskFree env.diffFiles = none)
    ∧ diskSpace (some 1000) [⟨"f".data, 1001⟩] = some (GoError.notEnoughSpace 1)
    ∧ diskSpace (some 1000) [⟨"f".data, 1000⟩] = some (GoError.notEnoughSpace 0)
    ∧ diskSpace (some 1000) [⟨"f".data, 999⟩] = none := by
  refine ⟨?_, ?_, fun h => doOld_copies_need_disk env h, by decide, by decide, by decide⟩
  · rw [diskSpace]
    split_ifs with hl <;> simp [hl] <;> omega
  · intro hl
    rw [diskSpace, if_pos hl]

/-! ## The error log writer

`logErrors` names the file `logs/<timestamp>.log` from Go's layout
`"20060102-150405"` (`YYYYMMDD-HHMMSS`), opens it for append and writes each
error message followed by a newline.  The clock value and the file system's
cooperation are inputs; the written content is returned as data. -/

/-- A clock reading, as the components Go's layout `20060102-150405`
renders. -/
structure DateTime where
  year : Nat
  month : Nat
  day : Nat
  hour : Nat
  minute : Nat
  second : Nat
deriving DecidableEq, Repr

/-- The decimal digit character for `n < 10`. -/
def digitChar (n : Nat) : Char := Char.ofNat (48 + n)

/-- A number rendered as exactly two decimal digits (`n < 100`). -/
def pad2 (n : Nat) : Str := [digitChar (n / 10), digitChar (n % 10)]

/-- A number rendered as exactly four decimal digits (`n < 10000`). -/
def pad4 (n : Nat) : Str :=
  [digitChar (n / 1000), digitChar (n / 100 % 10), digitChar (n / 10 % 10),
    digitChar (n % 10)]

/-- `t.Format("20060102-150405")`: fixed-width `YYYYMMDD-HHMMSS`. -/
def formatStamp (t : DateTime) : Str :=
  pad4 t.year ++ pad2 t.month ++ pad2 t.day ++ ['-'] ++ pad2 t.hour
    ++ pad2 t.minute ++ pad2 t.second

/-- The components fit their fixed widths (any real clock reading does). -/
def validDT (t : DateTime) : Prop :=
  t.year < 10000 ∧ t.month < 100 ∧ t.day < 100 ∧ t.hour < 100
    ∧ t.minute < 100 ∧ t.second < 100

instance (t : DateTime) : Decidable (validDT t) := by
  unfold validDT
  infer_instance

/-- Chronological order on clock readings: lexicographic on the
components. -/
def dtLt (a b : DateTime) : Prop :=
  a.year < b.year ∨ (a.year = b.year ∧ (a.month < b.month ∨ (a.month = b.month ∧
    (a.day < b.day ∨ (a.day = b.day ∧ (a.hour < b.hour ∨ (a.hour = b.hour ∧
      (a.minute < b.minute ∨ (a.minute = b.minute ∧ a.second < b.second)))))))))

instance (a b : DateTime) : Decidable (dtLt a b) := by
  unfold dtLt
  infer_instance

/-- The newline character the log writer appends after each message. -/
def nlChar : Char := Char.ofNat 10

/-- The write loop of `logErrors`: each error's message, then a newline, in
list order. -/
def writeLines : List Str → Str
  | [] => []
  | e :: rest => e ++ [nlChar] ++ writeLines rest

/-- What `logErrors` returns and writes: the log file's path, and on success
the content appended to it. -/
inductive LogResult where
  | fail (path : Str)
  | ok (path : Str) (content : Str)
deriving DecidableEq, Repr

/-- `logErrors`: the file is `filepath.Join(".", "logs", stamp + ".log")`
(Go's `Join` cleans away the leading `"./"`); `fsOk` models the open and the
writes succeeding; on failure the path is still returned, wrapped in the
write-log error. -/
def logErrors (t : DateTime) (fsOk : Bool) (errs : List Str) : LogResult :=
  let name := "logs".data ++ [pathSep] ++ formatStamp t ++ ".log".data
  if fsOk then LogResult.ok name (writeLines errs) else LogResult.fail name

theorem writeLines_eq_flatMap (errs : List Str) :
    writeLines errs = errs.flatMap (fun e => e ++ [nlChar]) := by
  induction errs with
  | nil => rfl
  | cons e rest ih => rw [writeLines, List.flatMap_cons, ih]

theorem digitChar_lt : ∀ a < 10, ∀ b < 10, a < b → digitChar a < digitChar b := by
  decide

theorem lex_append_of_lex {r : Char → Char → Prop} :
    ∀ {a b : Str}, List.Lex r a b → a.length = b.length →
      ∀ c d : Str, List.Lex r (a ++ c) (b ++ d) := by
  intro a b h
  induction h with
  | nil => intro hlen; simp at hlen
  | rel hr => intro _ c d; exact List.Lex.rel hr
  | cons h ih =>
    intro hlen c d
    exact List.Lex.cons (ih (by simpa using hlen) c d)

theorem pad2_lex (a b : Nat) (hb : b < 100) (hab : a < b) :
    List.Lex (fun x y : Char => x < y) (pad2 a) (pad2 b) := by
  rcases Nat.lt_trichotomy (a / 10) (b / 10) with h | h | h
  · exact List.Lex.rel (digitChar_lt (a / 10) (by omega) (b / 10) (by omega) h)
  · rw [pad2, pad2, h]
    have hm : a % 10 < b % 10 := by omega
    exact List.Lex.cons
      (List.Lex.rel (digitChar_lt (a % 10) (by omega) (b % 10) (by omega) hm))
  · omega

theorem pad4_lex (a b : Nat) (hb : b < 10000) (hab : a < b) :
    List.Lex (fun x y : Char => x < y) (pad4 a) (pad4 b) := by
  rw [pad4, pad4]
  rcases Nat.lt_trichotomy (a / 1000) (b / 1000) with h3 | h3 | h3
  · exact List.Lex.rel (digitChar_lt (a / 1000) (by omega) (b / 1000) (by omega) h3)
  · rw [h3]
    rcases Nat.lt_trichotomy (a / 100 % 10) (b / 100 % 10) with h2 | h2 | h2
    · exact List.Lex.cons
        (List.Lex.rel (digitChar_lt (a / 100 % 10) (by omega) (b / 100 % 10) (by omega) h2))
    · rw [h2]
      rcases Nat.lt_trichotomy (a / 10 % 10) (b / 10 % 10) with h1 | h1 | h1
      · exact List.Lex.cons (List.Lex.cons
          (List.Lex.rel (digitChar_lt (a / 10 % 10) (by omega) (b / 10 % 10) (by omega) h1)))
      · rw [h1]
        have h0 : a % 10 < b % 10 := by omega
        exact List.Lex.cons (List.Lex.cons (List.Lex.cons
          (List.Lex.rel (digitChar_lt (a % 10) (by omega) (b % 10) (by omega) h0))))
      · omega
    · omega
  · omega

/-- An earlier clock reading formats to a lexicographically smaller stamp:
the fixed-width layout sorts lexically by creation time. -/
theorem formatStamp_lex (t1 t2 : DateTime) (h1 : validDT t1) (h2 : validDT t2)
    (hlt : dtLt t1 t2) :
    List.Lex (fun x y : Char => x < y) (formatStamp t1) (formatStamp t2) := by
  obtain ⟨hy1, hmo1, hd1, hh1, hmi1, hs1⟩ := h1
  obtain ⟨hy2, hmo2, hd2, hh2, hmi2, hs2⟩ := h2
  rw [formatStamp, formatStamp]
  rw [List.append_assoc, List.append_assoc, List.append_assoc, List.append_assoc,
    List.append_assoc, List.append_assoc, List.append_assoc, List.append_assoc,
    List.append_assoc, List.append_assoc]
  rcases hlt with h | ⟨hy, hlt⟩
  · exact lex_append_of_lex (pad4_lex _ _ hy2 h) rfl _ _
  · rw [hy]
    apply List.Lex.append_left
    rcases hlt with h | ⟨hmo, hlt⟩
    · exact lex_append_of_lex (pad2_lex _ _ hmo2 h) rfl _ _
    · rw [hmo]
      apply List.Lex.append_left
      rcases hlt with h | ⟨hd, hlt⟩
      · exact lex_append_of_lex (pad2_lex _ _ hd2 h) rfl _ _
      · rw [hd]
        apply List.Lex.append_left
        apply List.Lex.append_left
        rcases hlt with h | ⟨hh, hlt⟩
        · exact lex_append_of_lex (pad2_lex _ _ hh2 h) rfl _ _
        · rw [hh]
          apply List.Lex.append_left
          rcases hlt with h | ⟨hmi, hlt⟩
          · exact lex_append_of_lex (pad2_lex _ _ hmi2 h) rfl _ _
          · rw [hmi]
            apply List.Lex.append_left
            exact pad2_lex _ _ hs2 hlt

/-- C7: for every non-empty error list, when the file system cooperates the
error log writer returns — with no error — the path of a file named by the
clock's stamp under the fixed `logs` directory, whose appended content is
each error's message followed by a newline, in list order; and the stamp
format (`YYYYMMDD-HHMMSS`) sorts lexically by creation time: a strictly
earlier clock reading yields a lexicographically smaller file name stem. -/
theorem log_errors_lines_and_sortable (errs : List Str) (t1 t2 : DateTime)
    (hne : errs ≠ []) (h1 : validDT t1) (h2 : validDT t2) (hlt : dtLt t1 t2) :
    logErrors t1 true errs
      = LogResult.ok ("logs".data ++ [pathSep] ++ formatStamp t1 ++ ".log".data)
          (errs.flatMap (fun e => e ++ [nlChar]))
    ∧ List.Lex (fun x y : Char => x < y) (formatStamp t1) (formatStamp t2) := by
  refine ⟨?_, formatStamp_lex t1 t2 h1 h2 hlt⟩
  rw [logErrors, if_pos rfl, writeLines_eq_flatMap]

/-- A concrete clock reading, and one a second later. -/
def stampA : DateTime := ⟨2024, 1, 2, 3, 4, 5⟩

/-- One second after `stampA`. -/
def stampB : DateTime := ⟨2024, 1, 2, 3, 4, 6⟩

/-- C7 (witness): one error, written at `stampA`, with `stampB` one second
later. -/
theorem log_errors_lines_and_sortable_witness :
    logErrors stampA true ["boom".data]
      = LogResult.ok ("logs".data ++ [pathSep] ++ formatStamp stampA ++ ".log".data)
          (["boom".data].flatMap (fun e => e ++ [nlChar]))
    ∧ List.Lex (fun x y : Char => x < y) (formatStamp stampA) (formatStamp stampB) :=
  log_errors_lines_and_sortable ["boom".data] stampA stampB (by decide) (by decide)
    (by decide) (by decide)

end Mp3Sync
